import Mathlib

/-!
Verification development for the PaperScope client-side orchestration
pipeline: the LLM response normalization layer (`geminiService`), the
persistence bridge (`db.ts`), the bounded-concurrency analysis queue and
the per-id sync coordinator (`App.tsx`).

Every definition is a shallow embedding of the corresponding TypeScript
function; asynchronous code is modelled as a labelled transition system
whose atomic steps are the maximal synchronous segments between `await`
suspension points (the app runs on a single-threaded cooperative
event loop).
-/

namespace PaperScope

/-! ## JSON values

A parsed JSON value as produced by `JSON.parse`.  The analysis claims only
exercise strings, objects, arrays and null, so numbers and booleans are
omitted; object fields are kept in insertion order, matching JavaScript
own-property enumeration order. -/

inductive Json where
  | null
  | str (s : String)
  | arr (elems : List Json)
  | obj (fields : List (String × Json))
deriving Repr

/-- Contiguous-sublist test on character lists. -/
def listIsInfix (pat : List Char) : List Char → Bool
  | [] => pat.isEmpty
  | c :: rest => pat.isPrefixOf (c :: rest) || listIsInfix pat rest

/-- JavaScript `s.includes(pat)` (substring test). -/
def strIncludes (s pat : String) : Bool :=
  listIsInfix pat.data s.data

/-- JavaScript `s.toLowerCase()`: character-wise lower-casing (ASCII
letters; other characters, including CJK, are unchanged). -/
def jsToLower (s : String) : String :=
  ⟨s.data.map Char.toLower⟩

def isJsSpace (c : Char) : Bool :=
  c == ' ' || c == '\t' || c == '\n' || c == '\r'

/-- JavaScript `s.trim()`: strip leading and trailing whitespace. -/
def jsTrim (s : String) : String :=
  ⟨((s.data.dropWhile isJsSpace).reverse.dropWhile isJsSpace).reverse⟩

/-- JavaScript truthiness restricted to the values of `Json`:
`undefined` (absent), `null` and the empty string are falsy. -/
def jsFalsy : Option Json → Bool
  | none => true
  | some .null => true
  | some (.str s) => s == ""
  | some (.arr _) => false
  | some (.obj _) => false

/-! ## `findRelevantObject` (geminiService)

Recursive search for the first object that exposes a title-like and a
problem-like key, exactly as in the source: the key test lower-cases the
own keys and checks membership; arrays are traversed element-wise and
objects value-wise, in order. -/

/-- The relevance test of `findRelevantObject`: the lower-cased keys contain
`title`/`标题` and one of `problem`/`问题`/`description`/`abstract`. -/
def relevantFields (fields : List (String × Json)) : Bool :=
  let keys := fields.map (fun p => jsToLower p.1)
  (keys.contains "title" || keys.contains "标题") &&
    (keys.contains "problem" || keys.contains "问题" ||
      keys.contains "description" || keys.contains "abstract")

mutual

def findRelevantObject : Json → Option Json
  | .obj fields =>
    if relevantFields fields then some (.obj fields)
    else findInFields fields
  | .arr elems => findInElems elems
  | .null => none
  | .str _ => none

def findInFields : List (String × Json) → Option Json
  | [] => none
  | (_, v) :: rest =>
    match findRelevantObject v with
    | some r => some r
    | none => findInFields rest

def findInElems : List Json → Option Json
  | [] => none
  | v :: rest =>
    match findRelevantObject v with
    | some r => some r
    | none => findInElems rest

end

/-! ## `normalizeKeys` (geminiService) -/

/-- The fixed key-alias table (`keyMap` in the source), in source order. -/
def keyMap : List (String × String) :=
  [("type", "type"), ("类型", "type"), ("领域", "type"),
   ("title", "title"), ("标题", "title"), ("题目", "title"),
   ("publication", "publication"), ("venue", "publication"),
   ("journal", "publication"), ("发表", "publication"),
   ("会议", "publication"), ("刊物", "publication"),
   ("problem", "problem"), ("痛点", "problem"), ("问题", "problem"),
   ("solution", "solution_idea"), ("solution_idea", "solution_idea"),
   ("idea", "solution_idea"), ("思路", "solution_idea"), ("解决", "solution_idea"),
   ("contribution", "contribution"), ("贡献", "contribution"), ("创新", "contribution"),
   ("method", "method"), ("方法", "method"), ("技术", "method"),
   ("model", "model_architecture"), ("model_architecture", "model_architecture"),
   ("architecture", "model_architecture"), ("模型", "model_architecture"),
   ("架构", "model_architecture"),
   ("borrowable", "borrowable_ideas"), ("borrowable_ideas", "borrowable_ideas"),
   ("ideas", "borrowable_ideas"), ("key_ideas", "borrowable_ideas"),
   ("借鉴", "borrowable_ideas"), ("启发", "borrowable_ideas"),
   ("critique", "critique"), ("evaluation", "critique"), ("评估", "critique"),
   ("批判", "critique"), ("局限", "critique"), ("不足", "critique"),
   ("future_work", "future_work"), ("future", "future_work"), ("未来", "future_work"),
   ("方向", "future_work"), ("questions", "future_work"),
   ("mind_map", "mind_map"), ("mindmap", "mind_map"), ("map", "mind_map"),
   ("思维导图", "mind_map"), ("脑图", "mind_map"), ("结构", "mind_map")]

/-- Exact lookup in the key-alias table (`keyMap[lower]`). -/
def lookupExact (lower : String) : Option String :=
  (keyMap.find? (fun p => p.1 == lower)).map (fun p => p.2)

/-- The partial-match fallback chain of `normalizeKeys`, in source order. -/
def fallbackKeyMatch (lower : String) : Option String :=
  if strIncludes lower "architect" || strIncludes lower "模型" || strIncludes lower "架构" then
    some "model_architecture"
  else if strIncludes lower "solution" || strIncludes lower "思路" then
    some "solution_idea"
  else if strIncludes lower "borrow" || strIncludes lower "idea" || strIncludes lower "借鉴" then
    some "borrowable_ideas"
  else if strIncludes lower "contrib" || strIncludes lower "贡献" then
    some "contribution"
  else if strIncludes lower "problem" || strIncludes lower "问题" then
    some "problem"
  else if strIncludes lower "method" || strIncludes lower "方法" then
    some "method"
  else if strIncludes lower "publ" || strIncludes lower "venue" || strIncludes lower "发表" then
    some "publication"
  else if strIncludes lower "title" || strIncludes lower "标题" then
    some "title"
  else if strIncludes lower "type" || strIncludes lower "类型" then
    some "type"
  else if strIncludes lower "eval" || strIncludes lower "critique" ||
      strIncludes lower "评估" || strIncludes lower "批判" then
    some "critique"
  else if strIncludes lower "future" || strIncludes lower "未来" || strIncludes lower "方向" then
    some "future_work"
  else if strIncludes lower "mind" || strIncludes lower "map" || strIncludes lower "导图" then
    some "mind_map"
  else none

/-- JavaScript property assignment `m[k] = v` on a plain object: overwrite
in place if the key exists, append otherwise. -/
def setKey (m : List (String × Json)) (k : String) (v : Json) : List (String × Json) :=
  if m.any (fun p => p.1 == k) then
    m.map (fun p => if p.1 == k then (k, v) else p)
  else m ++ [(k, v)]

/-- Property read `m[k]` on the normalized object. -/
def getField (m : List (String × Json)) (k : String) : Option Json :=
  (m.find? (fun p => p.1 == k)).map (fun p => p.2)

/-- The `normalizeKeys` helper: locate the relevant object (falling back to
the root when the search fails), then remap every own key through the
exact alias table and the partial-match chain; unmatched keys are copied
unchanged.  A non-object source contributes no keys. -/
def normalizeKeys (j : Json) : List (String × Json) :=
  let src := (findRelevantObject j).getD j
  match src with
  | .obj fields =>
    fields.foldl
      (fun acc kv =>
        let lower := jsTrim (jsToLower kv.1)
        match lookupExact lower with
        | some tk => setKey acc tk kv.2
        | none =>
          match fallbackKeyMatch lower with
          | some tk => setKey acc tk kv.2
          | none => setKey acc kv.1 kv.2)
      []
  | _ => []

/-! ## Result validation inside `analyzePaperWithGemini`

Both request modes run the HTTP call, parse the body, apply
`normalizeKeys` and then validate.  The functions below embed the
post-parse pipeline of each mode: the external (OpenAI-compatible) mode
rejects only when both the title and the problem fields are falsy, while
the native (managed Gemini) mode rejects whenever the title is falsy.
`Except.error` models the thrown `Error`. -/

def validateExternal (j : Json) : Except String (List (String × Json)) :=
  let result := normalizeKeys j
  if jsFalsy (getField result "title") && jsFalsy (getField result "problem") then
    .error "Parsed JSON is empty or missing key fields."
  else .ok result

def validateNative (j : Json) : Except String (List (String × Json)) :=
  let result := normalizeKeys j
  if jsFalsy (getField result "title") then
    .error "Analysis completed but returned incomplete data (Missing Title)."
  else .ok result

/-! ## `getPapersFromDB` (db.ts)

The outcome of the single `fetch('/api/papers')` call, abstracting the
network: the promise either rejects (network failure or the 10s abort
timer) or yields a response with an HTTP status and a body that may or
may not parse as JSON. -/

inductive FetchOutcome where
  | networkError (msg : String)
  | response (ok : Bool) (body : Option Json)
deriving Repr

/-- The body of `getPapersFromDB` before its surrounding `try`/`catch`:
a rejected fetch or a body that fails `response.json()` is a thrown
error; a non-OK status returns `[]` early; otherwise the parsed JSON is
returned as the paper list. -/
def getPapersFromDBBody : FetchOutcome → Except String Json
  | .networkError msg => .error msg
  | .response ok body =>
    if ok then
      match body with
      | none => .error "response body is not valid JSON"
      | some j => .ok j
    else .ok (Json.arr [])

/-- The full `getPapersFromDB`: the `catch` converts every thrown error
into the empty list, so the function is total and never propagates. -/
def getPapersFromDB (o : FetchOutcome) : Json :=
  match getPapersFromDBBody o with
  | .ok j => j
  | .error _ => Json.arr []

/-! ## The analysis queue (App.tsx)

The queue state mirrors the refs of the component: `backlog` is
`analysisQueueRef`, `queuedIds` is `analysisQueuedIdsRef` (a set,
represented as a duplicate-free list), `active` is
`activeAnalysisCountRef`.  `running` is the multiset of dispatched,
not-yet-completed `processPaper` calls and `dispatched` the cumulative
history of dispatches (ghost fields recording what `void processPaper`
launches, used to state the claims). -/

structure LLMSettings where
  useExternal : Bool
  baseUrl : String
  apiKey : String
  model : String
  temperature : Nat
  maxContextWindow : Nat
  timeout : Nat
deriving DecidableEq, Repr

/-- The default settings object from `types.ts`. -/
def DEFAULT_SETTINGS : LLMSettings :=
  { useExternal := false, baseUrl := "https://max.openai365.top/v1", apiKey := "",
    model := "gemini-3-flash-preview", temperature := 0,
    maxContextWindow := 300000, timeout := 600 }

/-- A paper's `file` field: raw bytes (File/Blob) or a server URL string. -/
inductive FileRef where
  | blob (data : String)
  | url (path : String)
deriving DecidableEq, Repr

structure AnalysisTask where
  id : String
  file : FileRef
  settings : LLMSettings
deriving DecidableEq, Repr

def MAX_PARALLEL_ANALYSES : Nat := 2

structure QueueState where
  backlog : List AnalysisTask
  queuedIds : List String
  active : Nat
  running : List AnalysisTask
  dispatched : List AnalysisTask
deriving DecidableEq, Repr

def initQueue : QueueState :=
  { backlog := [], queuedIds := [], active := 0, running := [], dispatched := [] }

/-- The `while` loop of `runAnalysisQueue`: while the active count is below
the cap and the backlog is non-empty, shift the head and increment the
count.  Returns the remaining backlog, the new active count and the
dispatched tasks in dispatch order. -/
def dispatchLoop : List AnalysisTask → Nat → List AnalysisTask × Nat × List AnalysisTask
  | [], active => ([], active, [])
  | t :: rest, active =>
    if active < MAX_PARALLEL_ANALYSES then
      let r := dispatchLoop rest (active + 1)
      (r.1, r.2.1, t :: r.2.2)
    else (t :: rest, active, [])

/-- `runAnalysisQueue`: run the dispatch loop over the current refs; each
shifted task is launched (`void processPaper`), so it joins `running`
and `dispatched`. -/
def runAnalysisQueue (s : QueueState) : QueueState :=
  let r := dispatchLoop s.backlog s.active
  { backlog := r.1, queuedIds := s.queuedIds, active := r.2.1,
    running := s.running ++ r.2.2, dispatched := s.dispatched ++ r.2.2 }

/-- `enqueueAnalysis`: no-op when the id is already in the de-dup set;
otherwise record the id, append the task to the backlog and run the
dispatch loop. -/
def enqueueAnalysis (id : String) (file : FileRef) (currentSettings : LLMSettings)
    (s : QueueState) : QueueState :=
  if id ∈ s.queuedIds then s
  else
    runAnalysisQueue
      { s with queuedIds := id :: s.queuedIds,
               backlog := s.backlog ++ [{ id := id, file := file, settings := currentSettings }] }

/-- The `.finally` continuation of a dispatched task: decrement the active
count (clamped at 0 as in the source), remove the id from the de-dup set,
drop the completed call from `running` and re-run the dispatch loop. -/
def completeTask (t : AnalysisTask) (s : QueueState) : QueueState :=
  runAnalysisQueue
    { s with active := s.active - 1,
             queuedIds := s.queuedIds.erase t.id,
             running := s.running.erase t }

/-- The queue-related effects of `deletePaper(id)`: filter the backlog and
remove the id from the de-dup set.  The in-flight `running` calls are not
cancelled. -/
def deleteFromQueue (id : String) (s : QueueState) : QueueState :=
  { s with backlog := s.backlog.filter (fun t => t.id != id),
           queuedIds := s.queuedIds.erase id }

/-- The reachable states of the queue: initial state, `enqueueAnalysis`
from any caller, completion of a dispatched in-flight task, and
`deletePaper`. -/
inductive QReach : QueueState → Prop where
  | init : QReach initQueue
  | enqueue {s} (h : QReach s) (id : String) (f : FileRef) (st : LLMSettings) :
      QReach (enqueueAnalysis id f st s)
  | complete {s} (h : QReach s) (t : AnalysisTask) (ht : t ∈ s.running) :
      QReach (completeTask t s)
  | delete {s} (h : QReach s) (id : String) : QReach (deleteFromQueue id s)

/-- Number of dispatches the loop performs from state `s`. -/
def dispatchCount (s : QueueState) : Nat :=
  min (MAX_PARALLEL_ANALYSES - s.active) s.backlog.length

theorem dispatchLoop_eq (backlog : List AnalysisTask) :
    ∀ active, dispatchLoop backlog active =
      (backlog.drop (min (MAX_PARALLEL_ANALYSES - active) backlog.length),
       active + min (MAX_PARALLEL_ANALYSES - active) backlog.length,
       backlog.take (min (MAX_PARALLEL_ANALYSES - active) backlog.length)) := by
  induction backlog with
  | nil => intro active; simp [dispatchLoop]
  | cons t rest ih =>
    intro active
    by_cases h : active < MAX_PARALLEL_ANALYSES
    · have hmin : min (MAX_PARALLEL_ANALYSES - active) (rest.length + 1) =
          min (MAX_PARALLEL_ANALYSES - (active + 1)) rest.length + 1 := by
        omega
      simp only [dispatchLoop, if_pos h, ih (active + 1), List.length_cons, hmin,
        List.drop_succ_cons, List.take_succ_cons, Prod.mk.injEq]
      exact ⟨trivial, by omega, trivial⟩
    · have hz : MAX_PARALLEL_ANALYSES - active = 0 := by omega
      simp [dispatchLoop, if_neg h, hz]

/-- Complete characterization of `runAnalysisQueue`: it moves the first
`dispatchCount s` backlog tasks, in order, to the running set. -/
theorem runAnalysisQueue_eq (s : QueueState) :
    runAnalysisQueue s =
      { backlog := s.backlog.drop (dispatchCount s),
        queuedIds := s.queuedIds,
        active := s.active + dispatchCount s,
        running := s.running ++ s.backlog.take (dispatchCount s),
        dispatched := s.dispatched ++ s.backlog.take (dispatchCount s) } := by
  simp [runAnalysisQueue, dispatchLoop_eq, dispatchCount]

theorem runAnalysisQueue_active_le (s : QueueState) (h : s.active ≤ MAX_PARALLEL_ANALYSES) :
    (runAnalysisQueue s).active ≤ MAX_PARALLEL_ANALYSES := by
  rw [runAnalysisQueue_eq]
  simp only [dispatchCount]
  omega

/-- The ghost field `running` tracks the active counter exactly. -/
def QInv (s : QueueState) : Prop :=
  s.active = s.running.length ∧ s.active ≤ MAX_PARALLEL_ANALYSES

theorem qinv_reach {s : QueueState} (h : QReach s) : QInv s := by
  induction h with
  | init => exact ⟨rfl, by simp [initQueue, MAX_PARALLEL_ANALYSES]⟩
  | enqueue h id f st ih =>
    rename_i s
    unfold enqueueAnalysis
    by_cases hid : id ∈ s.queuedIds
    · simpa [hid] using ih
    · rw [if_neg hid, runAnalysisQueue_eq]
      have h1 := ih.1
      have h2 := ih.2
      refine ⟨?_, ?_⟩
      · simp only [dispatchCount, List.length_append, List.length_take,
          List.length_singleton]
        omega
      · simp only [dispatchCount, List.length_append, List.length_singleton]
        omega
  | complete h t ht ih =>
    rename_i s
    unfold completeTask
    rw [runAnalysisQueue_eq]
    have hlen : (s.running.erase t).length = s.running.length - 1 :=
      List.length_erase_of_mem ht
    have hpos : 1 ≤ s.running.length := List.length_pos.mpr (List.ne_nil_of_mem ht)
    have h1 := ih.1
    have h2 := ih.2
    refine ⟨?_, ?_⟩
    · simp only [dispatchCount, List.length_append, List.length_take, hlen]
      omega
    · simp only [dispatchCount]
      omega
  | delete h id ih =>
    exact ⟨by simpa [deleteFromQueue] using ih.1, by simpa [deleteFromQueue] using ih.2⟩

/-! ## The paper store (App.tsx)

The slice of `PaperData` and of the `papers` list that the claims
mention, together with the store effects of `processPaper`'s completion
handlers and of `deletePaper`. -/

inductive PStatus where
  | idle
  | analyzing
  | success
  | error
deriving DecidableEq, Repr

inductive SaveStatus where
  | saving
  | saved
  | error
deriving DecidableEq, Repr

structure PaperData where
  id : String
  file : FileRef
  status : PStatus
  saveStatus : Option SaveStatus
  analysis : Option (List (String × Json))
  errorMessage : Option String

/-- Store effect of `deletePaper(id)`: `setPapers(prev.filter(...))`. -/
def deletePaperStore (id : String) (papers : List PaperData) : List PaperData :=
  papers.filter (fun p => p.id != id)

/-- Store effect of `processPaper`'s success continuation: look up the
latest record by id, return unchanged when it is gone, otherwise write
the updated record back. -/
def applyAnalysisSuccess (id : String) (result : List (String × Json))
    (papers : List PaperData) : List PaperData :=
  match papers.find? (fun p => p.id == id) with
  | none => papers
  | some latest =>
    papers.map fun p =>
      if p.id == id then
        { latest with status := .success, analysis := some result, errorMessage := none }
      else p

/-- Store effect of `processPaper`'s catch continuation (after the error
message has been classified): same lookup guard as the success path. -/
def applyAnalysisError (id : String) (friendlyError : String)
    (papers : List PaperData) : List PaperData :=
  match papers.find? (fun p => p.id == id) with
  | none => papers
  | some latest =>
    papers.map fun p =>
      if p.id == id then { latest with status := .error, errorMessage := some friendlyError }
      else p

theorem find?_deletePaperStore (id : String) (papers : List PaperData) :
    (deletePaperStore id papers).find? (fun p => p.id == id) = none := by
  rw [List.find?_eq_none]
  intro p hp
  have := List.of_mem_filter hp
  simpa using this

/-! ## Queue claim support -/

/-- Pending-plus-started occurrences of an id: backlog entries not yet
dispatched plus cumulative dispatches (= `processPaper` executions). -/
def execCount (id : String) (s : QueueState) : Nat :=
  s.backlog.countP (fun t => t.id == id) + s.dispatched.countP (fun t => t.id == id)

theorem countP_take_drop (p : AnalysisTask → Bool) (l : List AnalysisTask) (k : Nat) :
    (l.take k).countP p + (l.drop k).countP p = l.countP p := by
  rw [← List.countP_append, List.take_append_drop]

theorem execCount_runAnalysisQueue (id : String) (s : QueueState) :
    execCount id (runAnalysisQueue s) = execCount id s := by
  rw [runAnalysisQueue_eq]
  simp only [execCount, List.countP_append]
  have := countP_take_drop (fun t => t.id == id) s.backlog (dispatchCount s)
  omega

theorem enqueueAnalysis_queuedIds (id : String) (f : FileRef) (st : LLMSettings)
    (s : QueueState) (h : id ∉ s.queuedIds) :
    (enqueueAnalysis id f st s).queuedIds = id :: s.queuedIds := by
  rw [enqueueAnalysis, if_neg h, runAnalysisQueue_eq]

/-- C1: in every reachable state of the analysis queue, the in-flight
counter `activeAnalysisCountRef` — and the actual number of in-flight
`processPaper` calls — never exceeds `MAX_PARALLEL_ANALYSES = 2`. -/
theorem c1_bounded_concurrency (s : QueueState) (h : QReach s) :
    s.active ≤ MAX_PARALLEL_ANALYSES ∧ s.running.length ≤ MAX_PARALLEL_ANALYSES := by
  have hi := qinv_reach h
  exact ⟨hi.2, hi.1 ▸ hi.2⟩

def exampleFile : FileRef := FileRef.blob "pdf-bytes"

/-- A reachable state obtained by enqueueing three distinct papers. -/
def qEx3 : QueueState :=
  enqueueAnalysis "p3" exampleFile DEFAULT_SETTINGS
    (enqueueAnalysis "p2" exampleFile DEFAULT_SETTINGS
      (enqueueAnalysis "p1" exampleFile DEFAULT_SETTINGS initQueue))

theorem c1_bounded_concurrency_witness :
    qEx3.active ≤ MAX_PARALLEL_ANALYSES ∧ qEx3.running.length ≤ MAX_PARALLEL_ANALYSES :=
  c1_bounded_concurrency qEx3
    (QReach.enqueue
      (QReach.enqueue
        (QReach.enqueue QReach.init "p1" exampleFile DEFAULT_SETTINGS)
        "p2" exampleFile DEFAULT_SETTINGS)
      "p3" exampleFile DEFAULT_SETTINGS)

/-- C2: enqueueing an id already in the de-dup set is a no-op (the whole
queue state, backlog and set included, is unchanged); a double enqueue
equals a single one; from a state with no pending or dispatched task for
the id, a double enqueue yields exactly one pending-or-dispatched task,
and that count is preserved by task completions and by enqueues of other
ids — so the id is executed exactly once for the pair of enqueues. -/
theorem c2_enqueue_dedup (s : QueueState) (id : String) (f : FileRef) (st : LLMSettings) :
    (id ∈ s.queuedIds → enqueueAnalysis id f st s = s) ∧
    enqueueAnalysis id f st (enqueueAnalysis id f st s) = enqueueAnalysis id f st s ∧
    (id ∉ s.queuedIds → execCount id s = 0 →
      execCount id (enqueueAnalysis id f st (enqueueAnalysis id f st s)) = 1) ∧
    (∀ t : AnalysisTask, execCount id (completeTask t s) = execCount id s) ∧
    (∀ (j : String) (f2 : FileRef) (st2 : LLMSettings), j ≠ id →
      execCount id (enqueueAnalysis j f2 st2 s) = execCount id s) := by
  have hnoop : ∀ s2 : QueueState, id ∈ s2.queuedIds → enqueueAnalysis id f st s2 = s2 := by
    intro s2 h2
    rw [enqueueAnalysis, if_pos h2]
  have hsingle : id ∉ s.queuedIds →
      enqueueAnalysis id f st (enqueueAnalysis id f st s) = enqueueAnalysis id f st s := by
    intro h
    apply hnoop
    rw [enqueueAnalysis_queuedIds id f st s h]
    exact List.mem_cons_self id _
  refine ⟨hnoop s, ?_, ?_, ?_, ?_⟩
  · by_cases h : id ∈ s.queuedIds
    · rw [hnoop s h]
      exact hnoop s h
    · exact hsingle h
  · intro h h0
    rw [hsingle h, enqueueAnalysis, if_neg h, execCount_runAnalysisQueue]
    simp only [execCount, List.countP_append] at h0 ⊢
    have htask :
        List.countP (fun t => t.id == id)
          [({ id := id, file := f, settings := st } : AnalysisTask)] = 1 := by
      simp
    omega
  · intro t
    rw [completeTask, execCount_runAnalysisQueue]
    rfl
  · intro j f2 st2 hj
    rw [enqueueAnalysis]
    by_cases h2 : j ∈ s.queuedIds
    · rw [if_pos h2]
    · rw [if_neg h2, execCount_runAnalysisQueue]
      simp only [execCount, List.countP_append, List.countP_cons, List.countP_nil]
      have : (({ id := j, file := f2, settings := st2 } : AnalysisTask).id == id) = false := by
        simpa using hj
      simp [this]

theorem c2_enqueue_dedup_witness :
    execCount "p1"
      (enqueueAnalysis "p1" exampleFile DEFAULT_SETTINGS
        (enqueueAnalysis "p1" exampleFile DEFAULT_SETTINGS initQueue)) = 1 :=
  (c2_enqueue_dedup initQueue "p1" exampleFile DEFAULT_SETTINGS).2.2.1
    (by decide) (by decide)

/-- C7: the dispatch loop pops prefixes of the backlog in FIFO order (the
dispatched tasks are exactly the first `dispatchCount` backlog entries,
in order, and the rest stay queued in order), and when the queue is
saturated and a running task completes, the freed slot goes to the
current head of the backlog. -/
theorem c7_fifo_dispatch (s : QueueState) (t : AnalysisTask) :
    (runAnalysisQueue s).running = s.running ++ s.backlog.take (dispatchCount s) ∧
    (runAnalysisQueue s).backlog = s.backlog.drop (dispatchCount s) ∧
    (runAnalysisQueue s).dispatched = s.dispatched ++ s.backlog.take (dispatchCount s) ∧
    (s.active = MAX_PARALLEL_ANALYSES →
      ∀ u rest, s.backlog = u :: rest →
        (completeTask t s).running = s.running.erase t ++ [u] ∧
        (completeTask t s).backlog = rest ∧
        (completeTask t s).dispatched = s.dispatched ++ [u]) := by
  refine ⟨by rw [runAnalysisQueue_eq], by rw [runAnalysisQueue_eq], by rw [runAnalysisQueue_eq], ?_⟩
  intro hfull u rest hb
  have hcnt : dispatchCount
      { s with active := s.active - 1, queuedIds := s.queuedIds.erase t.id,
               running := s.running.erase t } = 1 := by
    simp only [dispatchCount, hb, hfull, List.length_cons, MAX_PARALLEL_ANALYSES]
    omega
  rw [completeTask, runAnalysisQueue_eq, hcnt, hb]
  simp

def taskP2 : AnalysisTask := { id := "p2", file := exampleFile, settings := DEFAULT_SETTINGS }

def taskP3 : AnalysisTask := { id := "p3", file := exampleFile, settings := DEFAULT_SETTINGS }

/-- A saturated queue: two tasks running, one waiting. -/
def qFull : QueueState :=
  { backlog := [taskP3], queuedIds := ["p3", "p2", "p1"], active := 2,
    running := [{ id := "p1", file := exampleFile, settings := DEFAULT_SETTINGS }, taskP2],
    dispatched := [{ id := "p1", file := exampleFile, settings := DEFAULT_SETTINGS }, taskP2] }

theorem c7_fifo_dispatch_witness :
    (completeTask taskP2 qFull).running = qFull.running.erase taskP2 ++ [taskP3] ∧
    (completeTask taskP2 qFull).backlog = [] ∧
    (completeTask taskP2 qFull).dispatched = qFull.dispatched ++ [taskP3] :=
  (c7_fifo_dispatch qFull taskP2).2.2.2 rfl taskP3 [] rfl

/-- C6: deleting an id purges its backlog entries; a backlog free of the
id stays free of it under completions, other-id enqueues and deletions,
and the dispatch loop never launches a task for it (so a deleted
queued-but-not-started task never executes); and after the store delete,
the success and error continuations of an in-flight analysis leave the
store unchanged (the result is discarded). -/
theorem c6_delete_discard (id j : String) (s : QueueState) (papers : List PaperData)
    (r : List (String × Json)) (msg : String) (f : FileRef) (st : LLMSettings)
    (t : AnalysisTask) :
    (∀ u ∈ (deleteFromQueue id s).backlog, u.id ≠ id) ∧
    ((∀ u ∈ s.backlog, u.id ≠ id) → j ≠ id →
      ∀ u ∈ (enqueueAnalysis j f st s).backlog, u.id ≠ id) ∧
    ((∀ u ∈ s.backlog, u.id ≠ id) → ∀ u ∈ (completeTask t s).backlog, u.id ≠ id) ∧
    ((∀ u ∈ s.backlog, u.id ≠ id) →
      ∀ u ∈ (runAnalysisQueue s).running, u ∈ s.running ∨ u.id ≠ id) ∧
    applyAnalysisSuccess id r (deletePaperStore id papers) = deletePaperStore id papers ∧
    applyAnalysisError id msg (deletePaperStore id papers) = deletePaperStore id papers := by
  refine ⟨?_, ?_, ?_, ?_, ?_, ?_⟩
  · intro u hu
    have := List.of_mem_filter hu
    simpa using this
  · intro hb hj u hu
    rw [enqueueAnalysis] at hu
    by_cases h2 : j ∈ s.queuedIds
    · rw [if_pos h2] at hu
      exact hb u hu
    · rw [if_neg h2, runAnalysisQueue_eq] at hu
      have hu2 : u ∈ s.backlog ++ [({ id := j, file := f, settings := st } : AnalysisTask)] :=
        List.mem_of_mem_drop hu
      rcases List.mem_append.mp hu2 with h3 | h3
      · exact hb u h3
      · simp only [List.mem_singleton] at h3
        subst h3
        exact hj
  · intro hb u hu
    rw [completeTask, runAnalysisQueue_eq] at hu
    exact hb u (List.mem_of_mem_drop hu)
  · intro hb u hu
    rw [runAnalysisQueue_eq] at hu
    rcases List.mem_append.mp hu with h3 | h3
    · exact Or.inl h3
    · exact Or.inr (hb u (List.mem_of_mem_take h3))
  · rw [applyAnalysisSuccess, find?_deletePaperStore]
  · rw [applyAnalysisError, find?_deletePaperStore]

def paperA : PaperData :=
  { id := "a", file := exampleFile, status := .analyzing, saveStatus := some .saving,
    analysis := none, errorMessage := none }

def paperB : PaperData :=
  { id := "b", file := exampleFile, status := .idle, saveStatus := none,
    analysis := none, errorMessage := none }

theorem c6_delete_discard_witness :
    applyAnalysisSuccess "a" [("title", Json.str "T")] (deletePaperStore "a" [paperA, paperB]) =
      deletePaperStore "a" [paperA, paperB] ∧
    (∀ u ∈ (deleteFromQueue "a" qFull).backlog, u.id ≠ "a") ∧
    (∀ u ∈ (enqueueAnalysis "b" exampleFile DEFAULT_SETTINGS qFull).backlog, u.id ≠ "a") := by
  have h := c6_delete_discard "a" "b" qFull [paperA, paperB] [("title", Json.str "T")]
    "Analysis failed" exampleFile DEFAULT_SETTINGS taskP2
  exact ⟨h.2.2.2.2.1, h.1, h.2.1 (by decide) (by decide)⟩

/-! ## The sync coordinator (syncPaperToDB, App.tsx)

A per-id labelled transition system.  All `syncPendingRef`,
`syncInFlightRef` and `papers` writes for one id are keyed by that id, so
the coordinator is modelled per id; records are abstracted to version
numbers (the record value passed to `syncPaperToDB`).  Atomic steps are
the maximal synchronous segments between `await` suspension points of
the cooperative event loop; the two suspension points inside the drain
loop are the lazy `checkBackendHealth` re-probe and the `savePaperToDB`
call, so a loop instance is suspended at one of the two `LoopFrame`s
below. -/

inductive LoopFrame where
  | checkingHealth (v : Nat)
  | saving (v : Nat)
deriving DecidableEq, Repr

structure SyncState where
  /-- The record's `saveStatus` in the store; `none` when the record does
  not exist (not yet created, or deleted). -/
  recordStatus : Option SaveStatus
  /-- `syncPendingRef` entry for this id. -/
  pending : Option Nat
  /-- Whether the id is in `syncInFlightRef`. -/
  inFlight : Bool
  /-- Suspended drain-loop instances for this id (at most one arises). -/
  loops : List LoopFrame
  /-- The cached backend health flag `isConnected`. -/
  isConnected : Bool
  /-- Versions with a `savePaperToDB` call currently outstanding. -/
  saveCalls : List Nat
  /-- History of versions passed to `syncPaperToDB` (ghost). -/
  calls : List Nat
  /-- History of versions taken from the pending slot by the loop (ghost). -/
  taken : List Nat
  /-- History of versions submitted to `savePaperToDB` (ghost). -/
  submitted : List Nat
deriving DecidableEq, Repr

def initSync (connected : Bool) : SyncState :=
  { recordStatus := none, pending := none, inFlight := false, loops := [],
    isConnected := connected, saveCalls := [], calls := [], taken := [], submitted := [] }

/-- One drain-loop round up to its next suspension point: take the pending
value (exiting and clearing the in-flight marker when there is none); if
the cached health flag is set, mark the record `saving` and issue the
save (suspending at the `savePaperToDB` await); otherwise suspend at the
lazy `checkBackendHealth` re-probe. -/
def loopContinue (s : SyncState) : SyncState :=
  match s.pending with
  | none => { s with loops := [], inFlight := false }
  | some v =>
    if s.isConnected then
      { s with pending := none, taken := s.taken ++ [v],
               recordStatus := s.recordStatus.map (fun _ => SaveStatus.saving),
               saveCalls := s.saveCalls ++ [v], submitted := s.submitted ++ [v],
               loops := [LoopFrame.saving v] }
    else
      { s with pending := none, taken := s.taken ++ [v],
               loops := [LoopFrame.checkingHealth v] }

/-- Entry of `syncPaperToDB(record)`: store the record in the pending
slot; return at once when a drain loop for the id is already in flight,
otherwise set the marker and run the loop to its first suspension. -/
def syncPaperCall (v : Nat) (s : SyncState) : SyncState :=
  let s1 := { s with pending := some v, calls := s.calls ++ [v] }
  if s1.inFlight then s1 else loopContinue { s1 with inFlight := true }

/-- Resumption after the lazy health re-probe inside the loop: on success
cache the healthy flag, mark the record `saving` and issue the save; on
failure mark the record `error` and continue the loop without calling
the backend. -/
def probeCont (healthy : Bool) (v : Nat) (s : SyncState) : SyncState :=
  if healthy then
    { s with isConnected := true,
             recordStatus := s.recordStatus.map (fun _ => SaveStatus.saving),
             saveCalls := s.saveCalls ++ [v], submitted := s.submitted ++ [v],
             loops := [LoopFrame.saving v] }
  else
    loopContinue { s with recordStatus := s.recordStatus.map (fun _ => SaveStatus.error),
                          loops := [] }

/-- Resumption after `savePaperToDB` settles: drop the outstanding call,
mark the record `saved` or `error`, and continue the loop. -/
def saveCont (ok : Bool) (v : Nat) (s : SyncState) : SyncState :=
  loopContinue
    { s with saveCalls := s.saveCalls.erase v,
             recordStatus := s.recordStatus.map
               (fun _ => if ok then SaveStatus.saved else SaveStatus.error),
             loops := [] }

inductive SyncLabel where
  | create
  | callSync (v : Nat)
  | probe (healthy : Bool)
  | saveRes (ok : Bool)
  | envHealth (healthy : Bool)
  | delete
deriving DecidableEq, Repr

/-- The atomic transitions of the per-id sync system.  `create` is
`handleFilesSelected` building the fresh record with `saveStatus:
'saving'` (the subsequent `syncPaperToDB` call is a separate step — the
analysis task launched in between suspends at its file-read before the
sync entry runs); `envHealth` is a periodic or manual
`performHealthCheck` resolving; `delete` is `deletePaper` (store record
removed, pending sync discarded, in-flight marker untouched). -/
inductive SyncStep : SyncState → SyncLabel → SyncState → Prop where
  | create (connected : Bool) :
      SyncStep (initSync connected) .create
        { initSync connected with recordStatus := some SaveStatus.saving }
  | callSync {s : SyncState} (v : Nat) : SyncStep s (.callSync v) (syncPaperCall v s)
  | probe {s : SyncState} (healthy : Bool) (v : Nat)
      (h : s.loops = [LoopFrame.checkingHealth v]) :
      SyncStep s (.probe healthy) (probeCont healthy v s)
  | saveRes {s : SyncState} (ok : Bool) (v : Nat)
      (h : s.loops = [LoopFrame.saving v]) :
      SyncStep s (.saveRes ok) (saveCont ok v s)
  | envHealth {s : SyncState} (healthy : Bool) :
      SyncStep s (.envHealth healthy) { s with isConnected := healthy }
  | delete {s : SyncState} :
      SyncStep s .delete { s with recordStatus := none, pending := none }

/-- Trace-indexed reachability from a start state. -/
inductive SyncReaches : SyncState → List SyncLabel → SyncState → Prop where
  | refl (s : SyncState) : SyncReaches s [] s
  | step {s s1 s2 : SyncState} {tr : List SyncLabel} {l : SyncLabel}
      (h1 : SyncReaches s tr s1) (h2 : SyncStep s1 l s2) :
      SyncReaches s (tr ++ [l]) s2

/-- Reachability from the app's initial state (`isConnected` starts true). -/
def SyncReachable (s : SyncState) : Prop :=
  ∃ tr, SyncReaches (initSync true) tr s

/-! ### Sync coordinator invariants -/

def savingPayload : LoopFrame → Option Nat
  | .saving v => some v
  | .checkingHealth _ => none

def framePayload : List LoopFrame → Option Nat
  | [] => none
  | .saving v :: _ => some v
  | .checkingHealth v :: _ => some v

def isCheckingFrame : LoopFrame → Bool
  | .checkingHealth _ => true
  | .saving _ => false

/-- The inductive invariant of the per-id sync system. -/
structure SyncInv (s : SyncState) : Prop where
  flag : s.inFlight = !s.loops.isEmpty
  one : s.loops.length ≤ 1
  callsMatch : s.saveCalls = s.loops.filterMap savingPayload
  savingOk : s.recordStatus = some SaveStatus.saving → s.saveCalls ≠ [] ∨ s.submitted = []
  frameLast : ∀ v, framePayload s.loops = some v → s.taken.getLast? = some v
  subCheck : s.loops.any isCheckingFrame = true → s.submitted.Sublist s.taken.dropLast
  subTaken : s.submitted.Sublist s.taken
  takenCallsP : ∀ v, s.pending = some v → (s.taken ++ [v]).Sublist s.calls
  takenCallsN : s.pending = none → s.taken.Sublist s.calls

theorem taken_sublist_calls {s : SyncState} (hinv : SyncInv s) : s.taken.Sublist s.calls := by
  cases hp : s.pending with
  | none => exact hinv.takenCallsN hp
  | some w => exact (List.sublist_append_left s.taken [w]).trans (hinv.takenCallsP w hp)

theorem dropLast_concat_getLast {l : List Nat} {v : Nat} (h : l.getLast? = some v) :
    l.dropLast ++ [v] = l := by
  induction l with
  | nil => simp at h
  | cons a l ih =>
    cases l with
    | nil =>
      simp only [List.getLast?_singleton, Option.some.injEq] at h
      simp [h]
    | cons b l2 =>
      rw [List.getLast?_cons_cons] at h
      have h2 := ih h
      simpa using h2

theorem loopContinue_inv (s : SyncState)
    (hsc : s.saveCalls = [])
    (hin : s.inFlight = true)
    (hsubT : s.submitted.Sublist s.taken)
    (hpendP : ∀ v, s.pending = some v → (s.taken ++ [v]).Sublist s.calls)
    (hpendN : s.pending = none → s.taken.Sublist s.calls)
    (hsaving : s.recordStatus = some SaveStatus.saving → s.submitted = []) :
    SyncInv (loopContinue s) := by
  cases hp : s.pending with
  | none =>
    simp only [loopContinue, hp]
    exact
      { flag := rfl
        one := by simp
        callsMatch := by simpa using hsc
        savingOk := fun h => Or.inr (hsaving h)
        frameLast := by intro v hv; simp [framePayload] at hv
        subCheck := by intro h; simp at h
        subTaken := hsubT
        takenCallsP := by intro v hv; simp at hv
        takenCallsN := fun _ => hpendN hp }
  | some v =>
    by_cases hc : s.isConnected
    · simp only [loopContinue, hp, if_pos hc]
      exact
        { flag := hin
          one := by simp
          callsMatch := by simp [hsc, savingPayload]
          savingOk := fun _ => Or.inl (by simp [hsc])
          frameLast := by
            intro w hw
            simp only [framePayload, Option.some.injEq] at hw
            rw [← hw]
            exact List.getLast?_concat _
          subCheck := by intro h; simp [isCheckingFrame] at h
          subTaken := hsubT.append (List.Sublist.refl [v])
          takenCallsP := by intro w hw; simp at hw
          takenCallsN := fun _ => hpendP v hp }
    · simp only [loopContinue, hp, if_neg hc]
      exact
        { flag := hin
          one := by simp
          callsMatch := by simp [hsc, savingPayload]
          savingOk := fun h => Or.inr (hsaving h)
          frameLast := by
            intro w hw
            simp only [framePayload, Option.some.injEq] at hw
            rw [← hw]
            exact List.getLast?_concat _
          subCheck := by
            intro _
            rw [List.dropLast_concat]
            exact hsubT
          subTaken := hsubT.trans (List.sublist_append_left _ _)
          takenCallsP := by intro w hw; simp at hw
          takenCallsN := fun _ => hpendP v hp }

theorem syncInv_step {s s2 : SyncState} {l : SyncLabel}
    (hinv : SyncInv s) (hstep : SyncStep s l s2) : SyncInv s2 := by
  cases hstep with
  | create connected =>
    exact
      { flag := rfl
        one := by simp [initSync]
        callsMatch := rfl
        savingOk := fun _ => Or.inr rfl
        frameLast := by intro v hv; simp [initSync, framePayload] at hv
        subCheck := by intro h; simp [initSync] at h
        subTaken := List.Sublist.refl []
        takenCallsP := by intro v hv; simp [initSync] at hv
        takenCallsN := fun _ => List.Sublist.refl [] }
  | callSync v =>
    have htc : s.taken.Sublist s.calls := taken_sublist_calls hinv
    cases hf : s.inFlight with
    | true =>
      simp only [syncPaperCall, hf, if_true]
      exact
        { flag := hf ▸ hinv.flag
          one := hinv.one
          callsMatch := hinv.callsMatch
          savingOk := hinv.savingOk
          frameLast := hinv.frameLast
          subCheck := hinv.subCheck
          subTaken := hinv.subTaken
          takenCallsP := by
            intro w hw
            simp only [Option.some.injEq] at hw
            rw [← hw]
            exact htc.append (List.Sublist.refl _)
          takenCallsN := by intro hw; simp at hw }
    | false =>
      simp only [syncPaperCall, hf, Bool.false_eq_true, if_false]
      have hloops : s.loops = [] := by
        have hflag := hinv.flag
        rw [hf] at hflag
        cases hl : s.loops with
        | nil => rfl
        | cons a l => rw [hl] at hflag; simp at hflag
      apply loopContinue_inv
      · have := hinv.callsMatch
        rw [hloops] at this
        simpa using this
      · rfl
      · exact hinv.subTaken
      · intro w hw
        simp only [Option.some.injEq] at hw
        rw [← hw]
        exact htc.append (List.Sublist.refl _)
      · intro hw; simp at hw
      · intro h
        rcases hinv.savingOk h with h2 | h2
        · exfalso
          apply h2
          have := hinv.callsMatch
          rw [hloops] at this
          simpa using this
        · exact h2
  | probe healthy v h =>
    have hsc : s.saveCalls = [] := by
      have := hinv.callsMatch
      rw [h] at this
      simpa [savingPayload] using this
    have hlast : s.taken.getLast? = some v := by
      apply hinv.frameLast
      rw [h]
      rfl
    have hin2 : s.inFlight = true := by
      rw [hinv.flag, h]
      rfl
    cases healthy with
    | true =>
      simp only [probeCont, if_true]
      exact
        { flag := hin2
          one := by simp
          callsMatch := by simp [hsc, savingPayload]
          savingOk := fun _ => Or.inl (by simp [hsc])
          frameLast := by
            intro w hw
            simp only [framePayload, Option.some.injEq] at hw
            rw [← hw]
            exact hlast
          subCheck := by intro hx; simp [isCheckingFrame] at hx
          subTaken := by
            have hdl : s.taken.dropLast ++ [v] = s.taken := dropLast_concat_getLast hlast
            have hsub : s.submitted.Sublist s.taken.dropLast := by
              apply hinv.subCheck
              rw [h]
              simp [isCheckingFrame]
            have := hsub.append (List.Sublist.refl [v])
            rwa [hdl] at this
          takenCallsP := hinv.takenCallsP
          takenCallsN := hinv.takenCallsN }
    | false =>
      simp only [probeCont, Bool.false_eq_true, if_false]
      apply loopContinue_inv
      · exact hsc
      · exact hin2
      · exact hinv.subTaken
      · exact hinv.takenCallsP
      · exact hinv.takenCallsN
      · intro hcon
        exfalso
        cases hrs : s.recordStatus <;> rw [hrs] at hcon <;> simp at hcon
  | saveRes ok v h =>
    have hsc : s.saveCalls = [v] := by
      have := hinv.callsMatch
      rw [h] at this
      simpa [savingPayload] using this
    have hin2 : s.inFlight = true := by
      rw [hinv.flag, h]
      rfl
    simp only [saveCont]
    apply loopContinue_inv
    · rw [hsc]
      simp
    · exact hin2
    · exact hinv.subTaken
    · exact hinv.takenCallsP
    · exact hinv.takenCallsN
    · intro hcon
      exfalso
      cases hrs : s.recordStatus with
      | none => rw [hrs] at hcon; simp at hcon
      | some x =>
        rw [hrs] at hcon
        cases ok <;> simp at hcon
  | envHealth healthy =>
    exact
      { flag := hinv.flag
        one := hinv.one
        callsMatch := hinv.callsMatch
        savingOk := hinv.savingOk
        frameLast := hinv.frameLast
        subCheck := hinv.subCheck
        subTaken := hinv.subTaken
        takenCallsP := hinv.takenCallsP
        takenCallsN := hinv.takenCallsN }
  | delete =>
    exact
      { flag := hinv.flag
        one := hinv.one
        callsMatch := hinv.callsMatch
        savingOk := by intro h2; cases h2
        frameLast := hinv.frameLast
        subCheck := hinv.subCheck
        subTaken := hinv.subTaken
        takenCallsP := by intro w hw; simp at hw
        takenCallsN := by
          intro hx
          show s.taken.Sublist s.calls
          exact taken_sublist_calls hinv }

theorem syncInv_init (connected : Bool) : SyncInv (initSync connected) :=
  { flag := rfl
    one := by simp [initSync]
    callsMatch := rfl
    savingOk := by intro h; simp [initSync] at h
    frameLast := by intro v hv; simp [initSync, framePayload] at hv
    subCheck := by intro h; simp [initSync] at h
    subTaken := List.Sublist.refl []
    takenCallsP := by intro v hv; simp [initSync] at hv
    takenCallsN := fun _ => List.Sublist.refl [] }

theorem syncInv_reaches {s0 s : SyncState} {tr : List SyncLabel}
    (h0 : SyncInv s0) (h : SyncReaches s0 tr s) : SyncInv s := by
  induction h with
  | refl => exact h0
  | step h1 h2 ih => exact syncInv_step ih h2

/-- The newest record value the coordinator is still responsible for:
the pending slot, else the one held by the suspended loop frame, else the
last value taken by the loop. -/
def currentVal (s : SyncState) : Option Nat :=
  match s.pending with
  | some v => some v
  | none =>
    match framePayload s.loops with
    | some v => some v
    | none => s.taken.getLast?

theorem lastCall_step {s1 s2 : SyncState} {l : SyncLabel}
    (hinv : SyncInv s1) (hstep : SyncStep s1 l s2) (hl : l ≠ SyncLabel.delete)
    (ihv : currentVal s1 = s1.calls.getLast?) : currentVal s2 = s2.calls.getLast? := by
  cases hstep with
  | create connected => rfl
  | callSync v =>
    cases hf : s1.inFlight with
    | true =>
      simp only [syncPaperCall, hf, if_true, currentVal]
      rw [List.getLast?_concat]
    | false =>
      simp only [syncPaperCall, hf, Bool.false_eq_true, if_false]
      cases hc : s1.isConnected with
      | true =>
        simp only [loopContinue, hc, if_true, currentVal, framePayload]
        rw [List.getLast?_concat]
      | false =>
        simp only [loopContinue, hc, Bool.false_eq_true, if_false, currentVal, framePayload]
        rw [List.getLast?_concat]
  | probe healthy v h =>
    have hfp : framePayload s1.loops = some v := by rw [h]; rfl
    cases healthy with
    | true =>
      simp only [probeCont, if_true]
      cases hp : s1.pending with
      | some w =>
        simp only [currentVal, hp] at ihv ⊢
        exact ihv
      | none =>
        simp only [currentVal, hp, hfp] at ihv
        simp only [currentVal, hp, framePayload]
        exact ihv
    | false =>
      simp only [probeCont, Bool.false_eq_true, if_false]
      cases hp : s1.pending with
      | some w =>
        cases hc : s1.isConnected with
        | true =>
          simp only [loopContinue, hp, hc, if_true, currentVal, framePayload]
          simp only [currentVal, hp] at ihv
          exact ihv
        | false =>
          simp only [loopContinue, hp, hc, Bool.false_eq_true, if_false, currentVal,
            framePayload]
          simp only [currentVal, hp] at ihv
          exact ihv
      | none =>
        simp only [loopContinue, hp, currentVal, framePayload]
        simp only [currentVal, hp, hfp] at ihv
        rw [hinv.frameLast v hfp]
        exact ihv
  | saveRes ok v h =>
    have hfp : framePayload s1.loops = some v := by rw [h]; rfl
    simp only [saveCont]
    cases hp : s1.pending with
    | some w =>
      cases hc : s1.isConnected with
      | true =>
        simp only [loopContinue, hp, hc, if_true, currentVal, framePayload]
        simp only [currentVal, hp] at ihv
        exact ihv
      | false =>
        simp only [loopContinue, hp, hc, Bool.false_eq_true, if_false, currentVal,
          framePayload]
        simp only [currentVal, hp] at ihv
        exact ihv
    | none =>
      simp only [loopContinue, hp, currentVal, framePayload]
      simp only [currentVal, hp, hfp] at ihv
      rw [hinv.frameLast v hfp]
      exact ihv
  | envHealth healthy => exact ihv
  | delete => exact absurd rfl hl

theorem lastCall_inv {tr : List SyncLabel} {s : SyncState}
    (h : SyncReaches (initSync true) tr s) (hnd : SyncLabel.delete ∉ tr) :
    currentVal s = s.calls.getLast? := by
  induction h with
  | refl => rfl
  | step h1 h2 ih =>
    rename_i s1 s2 tr1 l
    have hnd1 : SyncLabel.delete ∉ tr1 := fun hx => hnd (List.mem_append_left _ hx)
    have hl : l ≠ SyncLabel.delete := by
      intro hx
      exact hnd (List.mem_append_right _ (by simp [hx]))
    exact lastCall_step (syncInv_reaches (syncInv_init true) h1) h2 hl (ih hnd1)

theorem healthy_step {s1 s2 : SyncState} {l : SyncLabel}
    (hstep : SyncStep s1 l s2) (hl : l ≠ SyncLabel.envHealth false)
    (ih : s1.isConnected = true ∧ s1.loops.any isCheckingFrame = false ∧
      s1.taken = s1.submitted) :
    s2.isConnected = true ∧ s2.loops.any isCheckingFrame = false ∧
      s2.taken = s2.submitted := by
  obtain ⟨ihc, ihf, iht⟩ := ih
  cases hstep with
  | create connected =>
    exact ⟨ihc, by simp [initSync], rfl⟩
  | callSync v =>
    cases hf : s1.inFlight with
    | true =>
      simp only [syncPaperCall, hf, if_true]
      exact ⟨ihc, ihf, iht⟩
    | false =>
      simp only [syncPaperCall, hf, Bool.false_eq_true, if_false, loopContinue, ihc, if_true]
      exact ⟨trivial, by simp [isCheckingFrame], by rw [iht]⟩
  | probe healthy v h =>
    exfalso
    rw [h] at ihf
    simp [isCheckingFrame] at ihf
  | saveRes ok v h =>
    simp only [saveCont]
    cases hp : s1.pending with
    | some w =>
      simp only [loopContinue, hp, ihc, if_true]
      exact ⟨trivial, by simp [isCheckingFrame], by rw [iht]⟩
    | none =>
      simp only [loopContinue, hp]
      exact ⟨ihc, by simp, iht⟩
  | envHealth healthy =>
    cases healthy with
    | true => exact ⟨rfl, ihf, iht⟩
    | false => exact absurd rfl hl
  | delete => exact ⟨ihc, ihf, iht⟩

theorem healthy_inv {tr : List SyncLabel} {s : SyncState}
    (h : SyncReaches (initSync true) tr s) (hnb : SyncLabel.envHealth false ∉ tr) :
    s.isConnected = true ∧ s.loops.any isCheckingFrame = false ∧ s.taken = s.submitted := by
  induction h with
  | refl => exact ⟨rfl, rfl, rfl⟩
  | step h1 h2 ih =>
    rename_i s1 s2 tr1 l
    have hnb1 : SyncLabel.envHealth false ∉ tr1 := fun hx => hnb (List.mem_append_left _ hx)
    have hl : l ≠ SyncLabel.envHealth false := by
      intro hx
      exact hnb (List.mem_append_right _ (by simp [hx]))
    exact healthy_step h2 hl (ih hnb1)

/-! ## Claim theorems for the sync coordinator -/

/-- C3, as stated, is false: the claim says `saveStatus` is `'saving'`
only while a `savePaperToDB` call for the id is in flight, but
`handleFilesSelected` creates the record with `saveStatus: 'saving'`
before any save request has been dispatched — the state right after
creation is reachable, shows `saving`, and has no outstanding save call
(and nothing was ever submitted). -/
theorem c3_counterexample :
    ∃ s : SyncState, SyncReachable s ∧ s.recordStatus = some SaveStatus.saving ∧
      s.saveCalls = [] ∧ s.submitted = [] := by
  refine ⟨{ initSync true with recordStatus := some SaveStatus.saving },
    ⟨[SyncLabel.create], ?_⟩, rfl, rfl, rfl⟩
  have h := SyncReaches.step (SyncReaches.refl (initSync true)) (SyncStep.create true)
  simpa using h

/-- C3 (amended): in every reachable state, at most one `savePaperToDB`
call per id is in flight, and a record showing `saveStatus = 'saving'`
either has such a call in flight or has never had a save dispatched for
it (it is freshly created, before its first sync). -/
theorem c3_amended (s : SyncState) (h : SyncReachable s) :
    s.saveCalls.length ≤ 1 ∧
    (s.recordStatus = some SaveStatus.saving → s.saveCalls ≠ [] ∨ s.submitted = []) := by
  obtain ⟨tr, htr⟩ := h
  have hinv := syncInv_reaches (syncInv_init true) htr
  constructor
  · rw [hinv.callsMatch]
    exact (List.length_filterMap_le _ _).trans hinv.one
  · exact hinv.savingOk

theorem c3_amended_witness :
    ({ initSync true with recordStatus := some SaveStatus.saving } : SyncState).saveCalls.length ≤ 1 ∧
    (({ initSync true with recordStatus := some SaveStatus.saving } : SyncState).saveCalls ≠ [] ∨
      ({ initSync true with recordStatus := some SaveStatus.saving } : SyncState).submitted = []) := by
  have hr : SyncReachable { initSync true with recordStatus := some SaveStatus.saving } := by
    refine ⟨[SyncLabel.create], ?_⟩
    have h := SyncReaches.step (SyncReaches.refl (initSync true)) (SyncStep.create true)
    simpa using h
  have h := c3_amended _ hr
  exact ⟨h.1, h.2 rfl⟩

/-- The quiescent state reached by syncing version 0 while the backend is
unhealthy: the drain loop takes the value, the lazy re-probe fails, the
value is dropped with `saveStatus = 'error'` and the loop exits. -/
def syncCexState : SyncState :=
  probeCont false 0 (syncPaperCall 0 { initSync true with isConnected := false })

theorem syncCexState_reachable :
    SyncReaches (initSync true)
      [SyncLabel.envHealth false, SyncLabel.callSync 0, SyncLabel.probe false] syncCexState := by
  have h1 : SyncReaches (initSync true) [SyncLabel.envHealth false]
      { initSync true with isConnected := false } := by
    simpa using SyncReaches.step (SyncReaches.refl (initSync true)) (SyncStep.envHealth false)
  have h2 : SyncReaches (initSync true) [SyncLabel.envHealth false, SyncLabel.callSync 0]
      (syncPaperCall 0 { initSync true with isConnected := false }) := by
    simpa using SyncReaches.step h1 (SyncStep.callSync 0)
  have h3 := SyncReaches.step h2 (SyncStep.probe false 0 (by decide))
  simpa [syncCexState] using h3

/-- C4, as stated, is false: at quiescence the last record passed to
`syncPaperToDB` need not have been submitted to the backend save — when
the backend is unhealthy the drain loop takes the pending value, marks
the record `error` and drops it without calling the save endpoint.  The
reachable state below is quiescent (no pending value, no loop, no
in-flight marker), version 0 was passed, and nothing was ever
submitted. -/
theorem c4_counterexample :
    ∃ s : SyncState, SyncReachable s ∧
      s.pending = none ∧ s.loops = [] ∧ s.inFlight = false ∧
      s.calls = [0] ∧ s.submitted = [] := by
  exact ⟨syncCexState, ⟨_, syncCexState_reachable⟩, rfl, rfl, rfl, rfl, rfl⟩

/-- C4 (amended): the versions submitted to the backend are always a
subsequence of the versions passed to `syncPaperToDB` (never an older
record after a newer one); in every delete-free run, at quiescence the
last version passed is the last version the drain loop took (it was
either submitted, or dropped with `saveStatus = 'error'` because the
backend was unhealthy); and if additionally the backend never became
unhealthy, the last version passed is exactly the last version
submitted. -/
theorem c4_amended (tr : List SyncLabel) (s : SyncState)
    (h : SyncReaches (initSync true) tr s) :
    s.submitted.Sublist s.calls ∧
    (SyncLabel.delete ∉ tr → s.pending = none → s.loops = [] →
      s.taken.getLast? = s.calls.getLast?) ∧
    (SyncLabel.delete ∉ tr → SyncLabel.envHealth false ∉ tr → s.pending = none →
      s.loops = [] → s.submitted.getLast? = s.calls.getLast?) := by
  have hinv := syncInv_reaches (syncInv_init true) h
  refine ⟨hinv.subTaken.trans (taken_sublist_calls hinv), ?_, ?_⟩
  · intro hnd hp hl
    have hcv := lastCall_inv h hnd
    have hc2 : currentVal s = s.taken.getLast? := by
      simp [currentVal, hp, hl, framePayload]
    rw [← hc2, hcv]
  · intro hnd hnb hp hl
    have hts := (healthy_inv h hnb).2.2
    have hcv := lastCall_inv h hnd
    have hc2 : currentVal s = s.taken.getLast? := by
      simp [currentVal, hp, hl, framePayload]
    rw [← hts, ← hc2, hcv]

/-- The quiescent state reached by one successful sync of version 0. -/
def syncOkState : SyncState :=
  saveCont true 0 (syncPaperCall 0 (initSync true))

theorem syncOkState_reachable :
    SyncReaches (initSync true) [SyncLabel.callSync 0, SyncLabel.saveRes true] syncOkState := by
  have h1 : SyncReaches (initSync true) [SyncLabel.callSync 0]
      (syncPaperCall 0 (initSync true)) := by
    simpa using SyncReaches.step (SyncReaches.refl (initSync true)) (SyncStep.callSync 0)
  have h2 := SyncReaches.step h1 (SyncStep.saveRes true 0 (by decide))
  simpa [syncOkState] using h2

theorem c4_amended_witness :
    syncOkState.submitted.Sublist syncOkState.calls ∧
    syncOkState.taken.getLast? = syncOkState.calls.getLast? ∧
    syncOkState.submitted.getLast? = syncOkState.calls.getLast? := by
  have h := c4_amended _ _ syncOkState_reachable
  exact ⟨h.1, h.2.1 (by decide) rfl rfl, h.2.2 (by decide) (by decide) rfl rfl⟩

/-- C8: when the drain loop is suspended at the lazy health re-probe for a
taken value (the cached status was unhealthy) and the re-probe also
fails, the step marks the record `error`, does not call the papers save
endpoint for that value (no submission and no outstanding call is
added), clears nothing it should not, and continues the loop: with no
newer pending value it exits cleanly, and with a newer pending value it
takes that value for the next round. -/
theorem c8_unhealthy_skip (s s2 : SyncState) (v : Nat)
    (hframe : s.loops = [LoopFrame.checkingHealth v])
    (hconn : s.isConnected = false)
    (hstep : SyncStep s (.probe false) s2) :
    s2.submitted = s.submitted ∧ s2.saveCalls = s.saveCalls ∧
    s2.recordStatus = s.recordStatus.map (fun _ => SaveStatus.error) ∧
    s2.pending = none ∧
    (s.pending = none → s2.loops = [] ∧ s2.inFlight = false ∧ s2.taken = s.taken) ∧
    (∀ w, s.pending = some w →
      s2.loops = [LoopFrame.checkingHealth w] ∧ s2.taken = s.taken ++ [w]) := by
  cases hstep with
  | probe v2 h =>
    refine ⟨?_, ?_, ?_, ?_, ?_, ?_⟩
    · cases hp : s.pending <;> simp [probeCont, loopContinue, hp, hconn]
    · cases hp : s.pending <;> simp [probeCont, loopContinue, hp, hconn]
    · cases hp : s.pending <;> simp [probeCont, loopContinue, hp, hconn]
    · cases hp : s.pending <;> simp [probeCont, loopContinue, hp, hconn]
    · intro hp
      simp [probeCont, loopContinue, hp, hconn]
    · intro w hw
      simp [probeCont, loopContinue, hw, hconn]

/-- The suspended re-probe state used to exercise `c8_unhealthy_skip`. -/
def syncChkState : SyncState :=
  syncPaperCall 0 { initSync true with isConnected := false }

theorem c8_unhealthy_skip_witness :
    (probeCont false 0 syncChkState).submitted = syncChkState.submitted ∧
    (probeCont false 0 syncChkState).recordStatus =
      syncChkState.recordStatus.map (fun _ => SaveStatus.error) ∧
    (probeCont false 0 syncChkState).loops = [] ∧
    (probeCont false 0 syncChkState).inFlight = false := by
  have h := c8_unhealthy_skip syncChkState (probeCont false 0 syncChkState) 0
    (by decide) (by decide) (SyncStep.probe false 0 (by decide))
  exact ⟨h.1, h.2.2.1, (h.2.2.2.2.1 (by decide)).1, (h.2.2.2.2.1 (by decide)).2.1⟩

/-! ## Claim theorems for response validation and the persistence bridge -/

/-- C5, as stated, is false: in the external (OpenAI-compatible) mode a
200 response whose normalized result has a non-empty `problem` but no
`title` is returned as a success, not thrown — the error is raised only
when both title and problem are falsy.  The native mode does throw on a
missing title. -/
theorem c5_counterexample :
    validateExternal (Json.obj [("problem", Json.str "P")]) =
      Except.ok [("problem", Json.str "P")] ∧
    (validateNative (Json.obj [("problem", Json.str "P")])).isOk = false := by
  have hfr : findRelevantObject (Json.obj [("problem", Json.str "P")]) = none := by
    simp only [findRelevantObject, findInFields,
      show relevantFields [("problem", Json.str "P")] = false from rfl,
      Bool.false_eq_true, if_false]
  have hn : normalizeKeys (Json.obj [("problem", Json.str "P")]) =
      [("problem", Json.str "P")] := by
    simp only [normalizeKeys, hfr, Option.getD]
    rfl
  constructor
  · simp only [validateExternal, hn]
    rfl
  · simp only [validateNative, hn]
    rfl

/-- C5 (amended): the native (managed) mode throws whenever the
normalized result lacks a non-empty title; the external mode throws
exactly when the normalized result lacks both a non-empty title and a
non-empty problem, so a titleless result with a problem is reported as a
success there. -/
theorem c5_amended (j : Json) :
    (jsFalsy (getField (normalizeKeys j) "title") = true → (validateNative j).isOk = false) ∧
    ((validateExternal j).isOk = false ↔
      (jsFalsy (getField (normalizeKeys j) "title") = true ∧
        jsFalsy (getField (normalizeKeys j) "problem") = true)) := by
  constructor
  · intro h
    simp only [validateNative, h, if_true]
    rfl
  · unfold validateExternal
    cases ht : jsFalsy (getField (normalizeKeys j) "title") with
    | true =>
      cases hq : jsFalsy (getField (normalizeKeys j) "problem") with
      | true => simp [ht, hq, Except.isOk, Except.toBool]
      | false => simp [ht, hq, Except.isOk, Except.toBool]
    | false => simp [ht, Except.isOk, Except.toBool]

theorem c5_amended_witness :
    (validateNative (Json.obj [("problem", Json.str "P")])).isOk = false := by
  have hfr : findRelevantObject (Json.obj [("problem", Json.str "P")]) = none := by
    simp only [findRelevantObject, findInFields,
      show relevantFields [("problem", Json.str "P")] = false from rfl,
      Bool.false_eq_true, if_false]
  have hn : normalizeKeys (Json.obj [("problem", Json.str "P")]) =
      [("problem", Json.str "P")] := by
    simp only [normalizeKeys, hfr, Option.getD]
    rfl
  exact (c5_amended (Json.obj [("problem", Json.str "P")])).1 (by rw [hn]; rfl)

/-- C9: a parsed response whose keys are the Chinese synonyms `思路` and
`标题` is normalized to the canonical English keys `solution_idea` and
`title`, carrying the original values. -/
theorem c9_chinese_key_normalization (sx sy : String) :
    normalizeKeys (Json.obj [("思路", Json.str sx), ("标题", Json.str sy)]) =
      [("solution_idea", Json.str sx), ("title", Json.str sy)] ∧
    getField (normalizeKeys (Json.obj [("思路", Json.str sx), ("标题", Json.str sy)]))
      "solution_idea" = some (Json.str sx) ∧
    getField (normalizeKeys (Json.obj [("思路", Json.str sx), ("标题", Json.str sy)]))
      "title" = some (Json.str sy) := by
  have hfr : findRelevantObject (Json.obj [("思路", Json.str sx), ("标题", Json.str sy)]) =
      none := by
    simp only [findRelevantObject, findInFields,
      show relevantFields [("思路", Json.str sx), ("标题", Json.str sy)] = false from rfl,
      Bool.false_eq_true, if_false]
  have hn : normalizeKeys (Json.obj [("思路", Json.str sx), ("标题", Json.str sy)]) =
      [("solution_idea", Json.str sx), ("title", Json.str sy)] := by
    simp only [normalizeKeys, hfr, Option.getD]
    rfl
  exact ⟨hn, by rw [hn]; rfl, by rw [hn]; rfl⟩

/-- C10: `getPapersFromDB` is total and returns the empty list on every
failure mode — a rejected fetch (network error or the client-side abort
timer), a non-OK HTTP status, and a body that fails to parse as JSON —
while a parsed OK response is returned as the paper list. -/
theorem c10_get_papers_never_throws (msg : String) (body : Option Json) (j : Json) :
    getPapersFromDB (FetchOutcome.networkError msg) = Json.arr [] ∧
    getPapersFromDB (FetchOutcome.response false body) = Json.arr [] ∧
    getPapersFromDB (FetchOutcome.response true none) = Json.arr [] ∧
    getPapersFromDB (FetchOutcome.response true (some j)) = j :=
  ⟨rfl, rfl, rfl, rfl⟩

end PaperScope
